import Mathlib

/-!
Shallow embedding of the provisioning orchestration layer of the
freepbx-helper repository: number allocation (`src/utils/common.py`),
the schema-adaptive delete mutation and token cache (`src/core/freepbx.py`),
the SSH secondary channel (`src/core/asterisk.py`), the gateway slot form
read-modify-write (`src/core/goip.py`) and the batch command loops
(`src/handlers/commands.py`).  Machine integers are modelled as `Int`
(Python integers are unbounded); fallible code returns `Option`/`Except`.
-/

/-! ## Python primitives -/

/-- Value of a digit list, most significant first (`int` over digit chars). -/
def digitsToNat (l : List Char) : Nat :=
  l.foldl (fun a c => a * 10 + (c.toNat - 48)) 0

/-- Trim leading and trailing whitespace from a character list
(Python `int()` ignores surrounding whitespace). -/
def trimChars (l : List Char) : List Char :=
  ((l.dropWhile Char.isWhitespace).reverse.dropWhile Char.isWhitespace).reverse

/-- Python `int(s)` on a character list: optional sign followed by a
non-empty run of decimal digits; `none` models a raised `ValueError`. -/
def pyParseIntChars (l : List Char) : Option Int :=
  match trimChars l with
  | '-' :: rest =>
      if rest ≠ [] ∧ rest.all Char.isDigit then some (-(digitsToNat rest : Int)) else none
  | '+' :: rest =>
      if rest ≠ [] ∧ rest.all Char.isDigit then some ((digitsToNat rest : Int)) else none
  | t =>
      if t ≠ [] ∧ t.all Char.isDigit then some ((digitsToNat t : Int)) else none

/-- Python `int(s)` on a string. -/
def pyParseInt (s : String) : Option Int :=
  pyParseIntChars s.data

/-- Python `range(a, b + 1)` rendered as the inclusive integer interval
`[a, b]`; empty when `b < a`. -/
def intRange (a b : Int) : List Int :=
  (List.range (b + 1 - a).toNat).map (fun (i : Nat) => a + (i : Int))

/-- Python `map(f, l)` under a fallible `f`, failing as soon as one
element fails (a raised `ValueError` aborts the whole comprehension). -/
def optMap {α β : Type} (f : α → Option β) : List α → Option (List β)
  | [] => some []
  | x :: xs =>
    match f x, optMap f xs with
    | some y, some ys => some (y :: ys)
    | _, _ => none

/-! ## NumberAllocator: `next_free` (src/utils/common.py lines 27-34) -/

/-- The `while len(res) < count` loop of `next_free`, with explicit fuel.
Each iteration advances `cur` by one and emits `cur` when it is free. -/
def next_free_loop : Nat → Finset Int → Int → Nat → List Int
  | 0, _, _, _ => []
  | fuel + 1, taken, cur, count =>
    match count with
    | 0 => []
    | c + 1 =>
      if cur ∈ taken then next_free_loop fuel taken (cur + 1) (c + 1)
      else cur :: next_free_loop fuel taken (cur + 1) c

/-- `next_free(existing, start, count)`: `taken = set(map(int, existing))`,
then scan upward from `start` collecting `count` free numbers as strings.
`none` models the `ValueError` raised by `int` on a non-numeric entry.
The fuel `count + existing.length` is proved sufficient below. -/
def next_free (existing : List String) (start : Int) (count : Nat) : Option (List String) :=
  match optMap pyParseInt existing with
  | none => none
  | some tk =>
      some ((next_free_loop (count + existing.length) tk.toFinset start count).map
        (fun n => toString n))

/-! ## NumberAllocator: `parse_targets` (src/utils/common.py lines 16-25) -/

/-- Split a character list on whitespace runs, dropping empty tokens
(Python `s.strip().split()`). -/
def splitWsAux : List Char → List Char → List (List Char)
  | [], acc => if acc = [] then [] else [acc.reverse]
  | c :: rest, acc =>
    if c.isWhitespace then
      if acc = [] then splitWsAux rest [] else acc.reverse :: splitWsAux rest []
    else splitWsAux rest (c :: acc)

def splitWs (l : List Char) : List (List Char) :=
  splitWsAux l []

/-- Expansion of one token: a token containing `-` splits at the first `-`
and expands `range(int(a), int(b) + 1)` to decimal strings; any other
token is kept verbatim.  `none` models `ValueError` from `int`. -/
def expandTok (tok : List Char) : Option (List String) :=
  if tok.contains '-' then
    let a := tok.takeWhile (fun c => c ≠ '-')
    let b := tok.drop (a.length + 1)
    match pyParseIntChars a, pyParseIntChars b with
    | some ia, some ib => some ((intRange ia ib).map (fun n => toString n))
    | _, _ => none
  else
    some [String.mk tok]

/-- Deduplicate keeping first occurrences (deterministic rendering of
Python `set(out)` feeding a key-sort). -/
def dedupAux : List String → List String → List String
  | [], _ => []
  | x :: xs, seen =>
    if x ∈ seen then dedupAux xs seen else x :: dedupAux xs (x :: seen)

def dedupKeepFirst (l : List String) : List String :=
  dedupAux l []

/-- Stable insertion of a keyed element: inserted after all elements with a
key `≤` its own, matching Python stable `sorted(..., key=int)`. -/
def insertByKey (x : String × Int) : List (String × Int) → List (String × Int)
  | [] => [x]
  | y :: ys => if x.2 < y.2 then x :: y :: ys else y :: insertByKey x ys

def sortByIntKey (l : List (String × Int)) : List (String × Int) :=
  l.foldl (fun acc x => insertByKey x acc) []

/-- `parse_targets(s)`: tokenize, expand tokens, collect, then
`sorted(set(out), key=lambda x: int(x))`.  `none` models a raised
`ValueError` (malformed range endpoint or non-numeric sort key). -/
def parse_targets (s : String) : Option (List String) :=
  match optMap expandTok (splitWs s.data) with
  | none => none
  | some outs =>
    let uniq := dedupKeepFirst outs.flatten
    match optMap (fun x => (pyParseInt x).map (fun n => (x, n))) uniq with
    | none => none
    | some keyed => some ((sortByIntKey keyed).map Prod.fst)

/-! ## `_ext_to_slot` (src/utils/common.py lines 58-64) -/

/-- `_ext_to_slot(ext)`: `int(ext) % 100` when that remainder is in 1..32,
else `None`; a parse failure is swallowed and yields `None`.
Python `%` with positive modulus agrees with `Int.emod`. -/
def ext_to_slot (s : String) : Option Int :=
  match pyParseInt s with
  | none => none
  | some n =>
    let sl := n % 100
    if 1 ≤ sl ∧ sl ≤ 32 then some sl else none

/-! ## `_gen_secret` and the chan_sip secret allow-list
(src/utils/common.py lines 54-56, src/core/asterisk.py lines 238-239) -/

/-- `string.ascii_letters + string.digits + "._-@"`. -/
def secretAlphabet : List Char :=
  "abcdefghijklmnopqrstuvwxyzABCDEFGHIJKLMNOPQRSTUVWXYZ0123456789._-@".data

/-- Membership in the regex character class `[A-Za-z0-9._\-@]`. -/
def allowedChar (c : Char) : Bool :=
  ('A' ≤ c && c ≤ 'Z') || ('a' ≤ c && c ≤ 'z') || ('0' ≤ c && c ≤ '9') ||
    c = '.' || c = '_' || c = '-' || c = '@'

/-- `re.fullmatch(r"[A-Za-z0-9._\-@]+", s)`: non-empty and every char in
the class. -/
def secretRegexOk (s : String) : Bool :=
  !s.data.isEmpty && s.data.all allowedChar

/-- `_gen_secret`: 24 independent draws from `secretAlphabet`; the draw
sequence abstracts `secrets.choice`. -/
def gen_secret (choice : Fin 24 → Char) : String :=
  String.mk (List.ofFn choice)

/-- The validation guard at the head of
`set_extension_chansip_secret_via_ssh`: `SSHExecError` unless the secret
matches the allow-list. -/
def secret_validate (s : String) : Except String Unit :=
  if secretRegexOk s then Except.ok () else Except.error "bad secret format"

/-! ## SecondaryChannel: `_ssh_run` (src/core/asterisk.py lines 11-33) -/

/-- `_ssh_run` result handling: with captured `out` (stdout) and `err`
(stderr), raise `SSHExecError(err.strip()[:400])` when stderr is non-empty
and stdout is empty; otherwise return stdout. -/
def ssh_run (out err : String) : Except String String :=
  if err ≠ "" ∧ out = "" then Except.error (err.trim.take 400) else Except.ok out

/-! ## SchemaAdaptiveMutator: `FreePBX.delete_extension`
(src/core/freepbx.py lines 165-205) -/

/-- One mutation-shape variant: scalar type (`ID`/`String`), argument
field name, and whether the argument is wrapped in an `input` object. -/
abbrev DelVariant := String × String × String

/-- The ordered variant list of `delete_extension`, verbatim. -/
def delete_variants : List DelVariant :=
  [("ID", "id", "input"),
   ("String", "id", "input"),
   ("ID", "extensionId", "input"),
   ("String", "extensionId", "input"),
   ("ID", "extension", "input"),
   ("String", "extension", "input"),
   ("ID", "extId", "input"),
   ("String", "extId", "input"),
   ("ID", "id", "direct"),
   ("String", "id", "direct"),
   ("ID", "extensionId", "direct"),
   ("String", "extensionId", "direct"),
   ("ID", "extension", "direct"),
   ("String", "extension", "direct"),
   ("ID", "extId", "direct"),
   ("String", "extId", "direct")]

/-- The `for typ, field, mode in variants` loop: `remote` abstracts the
`self.gql` call on the mutation built from the variant.  Returns the
number of attempts made together with the outcome; on exhaustion the
error carries `str(last_err)` only. -/
def del_ext_loop (remote : DelVariant → Except String Unit) :
    List DelVariant → Option String → Nat × Except String Unit
  | [], last =>
      (0, Except.error ("deleteExtension failed (all variants): " ++ last.getD "None"))
  | v :: vs, _ =>
    match remote v with
    | Except.ok _ => (1, Except.ok ())
    | Except.error e =>
        let r := del_ext_loop remote vs (some e)
        (r.1 + 1, r.2)

/-- `delete_extension` over an abstract remote. -/
def delete_extension (remote : DelVariant → Except String Unit) : Nat × Except String Unit :=
  del_ext_loop remote delete_variants none

/-! ## AuthenticatedTransport: `FreePBX.ensure_token`
(src/core/freepbx.py lines 35-49) -/

/-- Cached auth state of a `FreePBX` object: `self.token` and
`self.token_exp` (time measured in integral seconds here). -/
structure PBXAuth where
  token : Option String
  tokenExp : Int
deriving DecidableEq

/-- Outcome of the client-credentials POST, as seen by the caller:
final HTTP status, and the optional `access_token` / `expires_in`
fields of the JSON body. -/
structure TokenHttp where
  status : Nat
  accessToken : Option String
  expiresIn : Option Int
deriving DecidableEq

/-- The cache-hit guard `if self.token and now < self.token_exp - 30`:
an empty cached token string is falsy in Python. -/
def tokenFresh (st : PBXAuth) (now : Int) : Prop :=
  match st.token with
  | some t => t ≠ "" ∧ now < st.tokenExp - 30
  | none => False

instance (st : PBXAuth) (now : Int) : Decidable (tokenFresh st now) := by
  unfold tokenFresh; cases st.token <;> infer_instance

/-- `requests.Response.raise_for_status`: raises exactly for status codes
in 400..599. -/
def raiseForStatus (status : Nat) : Prop := 400 ≤ status ∧ status < 600

instance (status : Nat) : Decidable (raiseForStatus status) := by
  unfold raiseForStatus; infer_instance

/-- `ensure_token`: return untouched on a fresh cache, otherwise run the
exchange (`resp` abstracts the HTTP call) and cache
`token = j["access_token"]`, `token_exp = now + j.get("expires_in", 3600)`.
The boolean reports whether a network call was made. -/
def ensure_token (st : PBXAuth) (now : Int) (resp : TokenHttp) :
    Except String (PBXAuth × Bool) :=
  if tokenFresh st now then Except.ok (st, false)
  else if raiseForStatus resp.status then Except.error "HTTPError"
  else
    match resp.accessToken with
    | none => Except.error "KeyError: access_token"
    | some t => Except.ok ({ token := some t, tokenExp := now + resp.expiresIn.getD 3600 }, true)

/-! ## DeviceSlotSync: `GoIP.set_incoming_enabled`
(src/core/goip.py lines 203-307), form construction steps 2-4 -/

/-- The six per-slot fields the form carries for each of the 32 slots. -/
structure SlotVals where
  fwToVoip : String
  fwNumToVoip : String
  gsmCw : String
  gsmGroupMode : String
  gsmFwMode : String
  autoBlacklist : String
deriving DecidableEq

/-- Step 3 of `set_incoming_enabled` applied on top of step 2: `parsed`
is the per-slot field extraction from the GET response (regex defaults
included); only the targeted slot has its enable radio and forwarding
alias overwritten. -/
def set_incoming_form (parsed : Nat → SlotVals) (slot : Nat) (enabled : Bool) :
    Nat → SlotVals :=
  fun i =>
    if i = slot then
      let v := parsed i
      if enabled then
        { v with fwToVoip := "on",
                 fwNumToVoip := if v.fwNumToVoip = "" then "sim" ++ toString slot
                                else v.fwNumToVoip }
      else
        { v with fwToVoip := "off", fwNumToVoip := "" }
    else parsed i

/-- The six posted key/value pairs of one slot. -/
def slot_fields (vals : Nat → SlotVals) (i : Nat) : List (String × String) :=
  [("line" ++ toString i ++ "_fw_to_voip", (vals i).fwToVoip),
   ("line" ++ toString i ++ "_fw_num_to_voip", (vals i).fwNumToVoip),
   ("line" ++ toString i ++ "_gsm_cw", (vals i).gsmCw),
   ("line" ++ toString i ++ "_gsm_group_mode", (vals i).gsmGroupMode),
   ("line" ++ toString i ++ "_gsm_fw_mode", (vals i).gsmFwMode),
   ("line" ++ toString i ++ "_auto_blacklist_in_enable", (vals i).autoBlacklist)]

/-- The complete POST body of step 4: the scalar header fields plus the
fields of every slot 1..32 after the step-3 overwrite. -/
def post_form (parsed : Nat → SlotVals) (slot : Nat) (enabled : Bool) :
    List (String × String) :=
  [("user_noinput_t", "60"), ("cid_fw_mode", "1"), ("submit", "Save"),
   ("line_fw_conf_tab", "line" ++ toString slot ++ "_fw_conf")]
  ++ (List.range 32).flatMap
      (fun k => slot_fields (set_incoming_form parsed slot enabled) (k + 1))

/-! ## BatchProvisioner: the command loops (src/handlers/commands.py)

Each handler is modelled as a pure function of the per-item operation
outcome (`op`, abstracting the network calls) and of the apply-config
outcome (`applyOk`).  `applyCalls` counts invocations of
`fb.apply_config()`; `applyFailReported` records the separate
"Apply Config не удалось" message. -/

/-- Whether an `Except` value is a success. -/
def exOk {ε α : Type} (r : Except ε α) : Bool :=
  match r with
  | Except.ok _ => true
  | Except.error _ => false

/-- The `for i, ext in enumerate(targets)` loop of `create_cmd`
(lines 389-401): `fb.create_one` / `fb.set_ext_password` are NOT wrapped
in a per-item try, so the first failure propagates and aborts the whole
handler.  Returns (created prefix, number of items entered, abort error). -/
def create_loop (op : String → Except String Unit) :
    List String → List String × Nat × Option String
  | [] => ([], 0, none)
  | x :: xs =>
    match op x with
    | Except.error e => ([], 1, some e)
    | Except.ok _ =>
        let r := create_loop op xs
        (x :: r.1, r.2.1 + 1, r.2.2)

/-- Result of a batch handler run. -/
structure BatchRes where
  okItems : List String
  skippedItems : List String
  failedItems : List String
  processed : Nat
  applyCalls : Nat
  applyFailReported : Bool
deriving DecidableEq

/-- `create_cmd` batch portion: run the loop; on abort the outer
`except` reports a handler-level error and `apply_config` is never
reached; otherwise `if targets:` guards a single apply whose failure is
reported separately. -/
def create_batch (targets : List String) (op : String → Except String Unit)
    (applyOk : Bool) : BatchRes :=
  let r := create_loop op targets
  let apply := if r.2.2 = none ∧ targets ≠ [] then 1 else 0
  { okItems := r.1
    skippedItems := []
    failedItems := (r.2.2.map (fun e => e)).toList
    processed := r.2.1
    applyCalls := apply
    applyFailReported := apply = 1 ∧ applyOk = false }

/-- The per-item loop of `del_cmd` (lines 449-461): every exception is
caught and the item is appended to `failed`; there is no AlreadyExists
special case.  Returns `(ok, failed)` in order. -/
def del_loop (op : String → Except String Unit) :
    List String → List String × List String
  | [] => ([], [])
  | x :: xs =>
    let r := del_loop op xs
    match op x with
    | Except.ok _ => (x :: r.1, r.2)
    | Except.error _ => (r.1, x :: r.2)

/-- `del_cmd` batch portion (lines 436-480): requested targets are first
filtered against the existing extension index; the loop runs over the
survivors; `if ok:` guards a single apply whose failure is reported
separately. -/
def del_batch (requested existing : List String)
    (op : String → Except String Unit) (applyOk : Bool) : BatchRes :=
  let targets := requested.filter (fun x => x ∈ existing)
  let missing := requested.filter (fun x => x ∉ existing)
  let r := del_loop op targets
  let apply := if r.1 ≠ [] then 1 else 0
  { okItems := r.1
    skippedItems := missing
    failedItems := r.2
    processed := targets.length
    applyCalls := apply
    applyFailReported := apply = 1 ∧ applyOk = false }

/-- Per-item outcome of `fb.create_inbound_route`: success, a raised
`AlreadyExists`, or any other exception with its message. -/
inductive RouteOut where
  | okR : RouteOut
  | alreadyR : RouteOut
  | errR (msg : String) : RouteOut
deriving DecidableEq

/-- The per-item loop of `add_inbound_cmd` (lines 731-751): a pre-check
against the (evolving) DID set skips, `AlreadyExists` skips, other errors
append `"ext (msg[:80])"` to `failed`, and iteration always continues. -/
def add_inbound_loop (op : String → RouteOut) :
    List String → List String → List String × List String × List String
  | [], _ => ([], [], [])
  | ext :: rest, dids =>
    let did := "_sim" ++ ext
    if ext ∈ dids ∨ did ∈ dids then
      let r := add_inbound_loop op rest dids
      (r.1, ext :: r.2.1, r.2.2)
    else
      match op ext with
      | RouteOut.okR =>
          let r := add_inbound_loop op rest (did :: dids)
          (ext :: r.1, r.2.1, r.2.2)
      | RouteOut.alreadyR =>
          let r := add_inbound_loop op rest dids
          (r.1, ext :: r.2.1, r.2.2)
      | RouteOut.errR e =>
          let r := add_inbound_loop op rest dids
          (r.1, r.2.1, (ext ++ " (" ++ e.take 80 ++ ")") :: r.2.2)

/-- `add_inbound_cmd` batch portion (lines 712-776): `todo` is the
targets filtered to existing extensions, `dids` the DID strings already
routed; `if ok:` guards a single apply whose failure is reported
separately. -/
def add_inbound_batch (todo dids : List String) (op : String → RouteOut)
    (applyOk : Bool) : BatchRes :=
  let r := add_inbound_loop op todo dids
  let apply := if r.1 ≠ [] then 1 else 0
  { okItems := r.1
    skippedItems := r.2.1
    failedItems := r.2.2
    processed := todo.length
    applyCalls := apply
    applyFailReported := apply = 1 ∧ applyOk = false }

/-- `del_inbound_cmd` batch portion (lines 827-880): after the early
return on an empty `todo`, the loop classifies each deletion, and
`fb.apply_config()` is then invoked UNCONDITIONALLY - even when every
deletion failed - with its failure reported separately. -/
def del_inbound_batch (todo : List String) (op : String → Except String Unit)
    (applyOk : Bool) : BatchRes :=
  if todo = [] then
    { okItems := [], skippedItems := [], failedItems := [], processed := 0,
      applyCalls := 0, applyFailReported := false }
  else
    let r := del_loop op todo
    { okItems := r.1
      skippedItems := []
      failedItems := r.2
      processed := todo.length
      applyCalls := 1
      applyFailReported := applyOk = false }

/-- Substring test over character lists (used to inspect aggregate error
messages). -/
def strContains (hay needle : List Char) : Bool :=
  hay.tails.any (fun t => needle.isPrefixOf t)

/-! ## Theorems -/

/-- Every character of the generation alphabet passes the allow-list. -/
lemma secretAlphabet_allowed : ∀ c ∈ secretAlphabet, allowedChar c = true := by
  decide

/-- C8: `_ssh_run` raises `SSHExecError` exactly when stderr is non-empty
and stdout is empty; whenever stdout is non-empty it returns stdout
successfully even if stderr was also produced. -/
theorem ssh_run_spec (out err : String) :
    ((∃ e, ssh_run out err = Except.error e) ↔ (err ≠ "" ∧ out = "")) ∧
    (out ≠ "" → ssh_run out err = Except.ok out) := by
  unfold ssh_run
  by_cases h : err ≠ "" ∧ out = ""
  · rw [if_pos h]
    refine ⟨⟨fun _ => h, fun _ => ⟨_, rfl⟩⟩, fun hne => absurd h.2 hne⟩
  · rw [if_neg h]
    exact ⟨⟨fun ⟨e, he⟩ => absurd he (by simp), fun hh => absurd hh h⟩, fun _ => rfl⟩

/-- Witness for `ssh_run_spec` at concrete stdout/stderr pairs. -/
theorem ssh_run_spec_witness :
    ssh_run "ok" "warn" = Except.ok "ok" ∧
    (∃ e, ssh_run "" "boom" = Except.error e) :=
  ⟨(ssh_run_spec "ok" "warn").2 (by decide),
   ((ssh_run_spec "" "boom").1).mpr (by decide)⟩

/-- C9: every secret `_gen_secret` can produce (24 draws from its
alphabet) passes the `[A-Za-z0-9._\-@]+` allow-list applied by
`set_extension_chansip_secret_via_ssh`, so the validation-failure branch
is unreachable for generated secrets. -/
theorem gen_secret_spec (choice : Fin 24 → Char)
    (h : ∀ i, choice i ∈ secretAlphabet) :
    (gen_secret choice).data.length = 24 ∧
    secretRegexOk (gen_secret choice) = true ∧
    secret_validate (gen_secret choice) = Except.ok () := by
  have hdata : (gen_secret choice).data = List.ofFn choice := rfl
  have hlen : (gen_secret choice).data.length = 24 := by
    rw [hdata, List.length_ofFn]
  have hok : secretRegexOk (gen_secret choice) = true := by
    unfold secretRegexOk
    rw [hdata]
    have h1 : (List.ofFn choice).isEmpty = false := by
      simp [List.isEmpty_iff_length_eq_zero, List.length_ofFn]
    have h2 : (List.ofFn choice).all allowedChar = true := by
      rw [List.all_eq_true]
      intro c hc
      obtain ⟨i, rfl⟩ := Set.mem_range.mp ((List.mem_ofFn choice c).mp hc)
      exact secretAlphabet_allowed _ (h i)
    rw [h1, h2]
    rfl
  refine ⟨hlen, hok, ?_⟩
  unfold secret_validate
  rw [hok]
  rfl

/-- Witness for `gen_secret_spec` on the constant draw sequence. -/
theorem gen_secret_spec_witness :
    (∀ i : Fin 24, (fun _ : Fin 24 => 'a') i ∈ secretAlphabet) ∧
    secret_validate (gen_secret (fun _ : Fin 24 => 'a')) = Except.ok () :=
  ⟨fun _ => (by decide : ('a' : Char) ∈ secretAlphabet),
   (gen_secret_spec (fun _ => 'a')
      (fun _ => (by decide : ('a' : Char) ∈ secretAlphabet))).2.2⟩

/-- C10: `_ext_to_slot` is total: it returns `int(ext) % 100` exactly when
the input parses and that remainder lies in 1..32, `None` otherwise
(non-numeric input included, never raising); in particular extensions 400
and 433 map to no slot while 401 maps to slot 1. -/
theorem ext_to_slot_spec :
    (∀ s, pyParseInt s = none → ext_to_slot s = none) ∧
    (∀ s n, pyParseInt s = some n →
      ext_to_slot s =
        if 1 ≤ n % 100 ∧ n % 100 ≤ 32 then some (n % 100) else none) ∧
    ext_to_slot "400" = none ∧
    ext_to_slot "433" = none ∧
    ext_to_slot "401" = some 1 ∧
    ext_to_slot "abc" = none := by
  refine ⟨?_, ?_, ?_, ?_, ?_, ?_⟩
  · intro s h
    unfold ext_to_slot
    rw [h]
  · intro s n h
    unfold ext_to_slot
    rw [h]
  · decide
  · decide
  · decide
  · decide

/-- Witness for `ext_to_slot_spec` at a parsed input. -/
theorem ext_to_slot_spec_witness :
    pyParseInt "205" = some 205 ∧ ext_to_slot "205" = some 5 :=
  ⟨by decide,
   by rw [ext_to_slot_spec.2.1 "205" 205 (by decide)]; decide⟩

/-- C6: the POST body of `set_incoming_enabled` carries the six fields of
every slot 1..32; every slot other than the target keeps exactly the
values parsed from the preceding GET, and on the target only the enable
radio and the forwarding alias are overwritten. -/
theorem set_incoming_form_frame (parsed : Nat → SlotVals) (slot : Nat)
    (enabled : Bool) (i : Nat) (h1 : 1 ≤ i) (h2 : i ≤ 32) :
    (∀ fv ∈ slot_fields (set_incoming_form parsed slot enabled) i,
        fv ∈ post_form parsed slot enabled) ∧
    (i ≠ slot → set_incoming_form parsed slot enabled i = parsed i) ∧
    (set_incoming_form parsed slot enabled slot).gsmCw = (parsed slot).gsmCw ∧
    (set_incoming_form parsed slot enabled slot).gsmGroupMode
      = (parsed slot).gsmGroupMode ∧
    (set_incoming_form parsed slot enabled slot).gsmFwMode
      = (parsed slot).gsmFwMode ∧
    (set_incoming_form parsed slot enabled slot).autoBlacklist
      = (parsed slot).autoBlacklist := by
  refine ⟨?_, ?_, ?_, ?_, ?_, ?_⟩
  · intro fv hfv
    unfold post_form
    apply List.mem_append_right
    apply List.mem_flatMap.mpr
    refine ⟨i - 1, ?_, ?_⟩
    · exact List.mem_range.mpr (by omega)
    · have hi : i - 1 + 1 = i := by omega
      rw [hi]
      exact hfv
  · intro hne
    unfold set_incoming_form
    rw [if_neg hne]
  all_goals
    unfold set_incoming_form
    rw [if_pos rfl]
    cases enabled <;> rfl

/-- Witness for `set_incoming_form_frame`: slot 5 toggled on, slot 3
inspected, on a concrete parsed form. -/
theorem set_incoming_form_frame_witness :
    (1 ≤ 3 ∧ 3 ≤ 32) ∧
    set_incoming_form (fun _ => ⟨"off", "", "0", "DISABLE", "0", "off"⟩) 5 true 3
      = (fun _ => (⟨"off", "", "0", "DISABLE", "0", "off"⟩ : SlotVals)) 3 :=
  ⟨⟨by decide, by decide⟩,
   (set_incoming_form_frame (fun _ => ⟨"off", "", "0", "DISABLE", "0", "off"⟩)
      5 true 3 (by decide) (by decide)).2.1 (by decide)⟩

/-- C7 counterexample: the claim says `ensureToken` fails on any non-2xx
response, but `raise_for_status` only raises for 4xx/5xx: a 302 exchange
response whose body still carries a token is cached as a success. -/
theorem ensure_token_counterexample :
    (302 < 200 ∨ 300 ≤ 302) ∧
    ensure_token ⟨none, 0⟩ 0 ⟨302, some "tok", some 60⟩ =
      Except.ok (⟨some "tok", 60⟩, true) := by
  constructor
  · right; decide
  · rfl

/-- C7 (amended): with a cached non-empty token whose expiry is more than
30 seconds past `now`, `ensure_token` returns at once with no network
call and no state change; otherwise it runs the exchange and caches
`now + expires_in` (default 3600), failing on any 4xx/5xx response or on
a missing `access_token` field. -/
theorem ensure_token_spec :
    (∀ st now resp, tokenFresh st now →
       ensure_token st now resp = Except.ok (st, false)) ∧
    (∀ st now resp t, ¬tokenFresh st now → ¬raiseForStatus resp.status →
       resp.accessToken = some t →
       ensure_token st now resp =
         Except.ok ({ token := some t, tokenExp := now + resp.expiresIn.getD 3600 },
           true)) ∧
    (∀ st now resp, ¬tokenFresh st now → raiseForStatus resp.status →
       ensure_token st now resp = Except.error "HTTPError") ∧
    (∀ st now resp, ¬tokenFresh st now → ¬raiseForStatus resp.status →
       resp.accessToken = none →
       ensure_token st now resp = Except.error "KeyError: access_token") := by
  refine ⟨?_, ?_, ?_, ?_⟩
  · intro st now resp h
    unfold ensure_token
    rw [if_pos h]
  · intro st now resp t h hs ht
    unfold ensure_token
    rw [if_neg h, if_neg hs, ht]
  · intro st now resp h hs
    unfold ensure_token
    rw [if_neg h, if_pos hs]
  · intro st now resp h hs ht
    unfold ensure_token
    rw [if_neg h, if_neg hs, ht]

/-- Witness for `ensure_token_spec`: a fresh cache is returned unchanged
even when the (never-issued) exchange would have failed. -/
theorem ensure_token_spec_witness :
    tokenFresh ⟨some "t", 100⟩ 0 ∧
    ensure_token ⟨some "t", 100⟩ 0 ⟨500, none, none⟩ =
      Except.ok (⟨some "t", 100⟩, false) :=
  ⟨by decide, ensure_token_spec.1 ⟨some "t", 100⟩ 0 ⟨500, none, none⟩ (by decide)⟩

/-- The variant loop returns after attempt `k + 1` when the first `k`
variants are rejected and variant `k` is accepted. -/
lemma del_ext_loop_first_success (remote : DelVariant → Except String Unit) :
    ∀ (vs : List DelVariant) (last : Option String) (k : Nat) (hk : k < vs.length),
      remote (vs.get ⟨k, hk⟩) = Except.ok () →
      (∀ i (hi : i < k), ∃ e, remote (vs.get ⟨i, Nat.lt_trans hi hk⟩) = Except.error e) →
      del_ext_loop remote vs last = (k + 1, Except.ok ()) := by
  intro vs
  induction vs with
  | nil =>
    intro last k hk
    exact absurd hk (by simp)
  | cons v vs ih =>
    intro last k hk hacc hrej
    match k with
    | 0 =>
      have hv : remote v = Except.ok () := hacc
      simp only [del_ext_loop, hv]
    | k + 1 =>
      obtain ⟨e, he⟩ := hrej 0 (Nat.succ_pos k)
      have hv : remote v = Except.error e := he
      have hk2 : k < vs.length := Nat.lt_of_succ_lt_succ hk
      simp only [del_ext_loop, hv]
      rw [ih (some e) k hk2 hacc (fun i hi => hrej (i + 1) (Nat.succ_lt_succ hi))]

/-- When every variant is rejected (`f` giving each rejection reason),
the loop makes one attempt per variant and its final error message
carries only the LAST reason. -/
lemma del_ext_loop_all_fail (remote : DelVariant → Except String Unit)
    (f : DelVariant → String) :
    ∀ (vs : List DelVariant) (last : Option String),
      (∀ v ∈ vs, remote v = Except.error (f v)) →
      del_ext_loop remote vs last =
        (vs.length,
         Except.error ("deleteExtension failed (all variants): " ++
           (vs.map f).getLastD (last.getD "None"))) := by
  intro vs
  induction vs with
  | nil =>
    intro last _
    rfl
  | cons v vs ih =>
    intro last hf
    have hv : remote v = Except.error (f v) := hf v (List.mem_cons_self v vs)
    simp only [del_ext_loop, hv]
    rw [ih (some (f v)) (fun w hw => hf w (List.mem_cons_of_mem v hw))]
    simp only [List.length_cons, List.map_cons, List.getLastD_cons, Option.getD_some]

/-- C3 counterexample: with a remote rejecting every variant with a
distinct reason, `delete_extension` fails with a message that carries
only the last attempt's reason; the first attempt's reason does not even
occur in the message, so the error does not enumerate every attempt. -/
theorem delete_extension_counterexample :
    delete_extension (fun v => Except.error (v.2.1 ++ "/" ++ v.2.2 ++ "/" ++ v.1)) =
      (16, Except.error "deleteExtension failed (all variants): extId/direct/String") ∧
    strContains
      ("deleteExtension failed (all variants): extId/direct/String").data
      ("id/input/ID").data = false := by
  constructor
  · rfl
  · decide

/-- C3 (amended): `delete_extension` tries its 16 shape variants in
order, returning after exactly `k + 1` attempts when the first accepted
variant is the `(k + 1)`-th; when every variant is rejected it makes all
16 attempts and fails with an error reporting only the final attempt's
failure reason. -/
theorem delete_extension_amended :
    (∀ (remote : DelVariant → Except String Unit) (k : Nat)
       (hk : k < delete_variants.length),
       remote (delete_variants.get ⟨k, hk⟩) = Except.ok () →
       (∀ i (hi : i < k),
          ∃ e, remote (delete_variants.get ⟨i, Nat.lt_trans hi hk⟩) = Except.error e) →
       delete_extension remote = (k + 1, Except.ok ())) ∧
    (∀ (remote : DelVariant → Except String Unit) (f : DelVariant → String),
       (∀ v ∈ delete_variants, remote v = Except.error (f v)) →
       delete_extension remote =
         (16, Except.error ("deleteExtension failed (all variants): " ++
            f ("String", "extId", "direct")))) := by
  constructor
  · intro remote k hk hacc hrej
    exact del_ext_loop_first_success remote delete_variants none k hk hacc hrej
  · intro remote f hf
    have h := del_ext_loop_all_fail remote f delete_variants none hf
    rw [delete_extension, h]
    rfl

/-- Witness for `delete_extension_amended`: a remote accepting only the
third variant is reached in exactly three attempts. -/
theorem delete_extension_amended_witness :
    delete_extension
      (fun v => if v = ("ID", "extensionId", "input") then Except.ok ()
                else Except.error "nope") = (3, Except.ok ()) :=
  delete_extension_amended.1
    (fun v => if v = ("ID", "extensionId", "input") then Except.ok ()
              else Except.error "nope")
    2 (by decide) rfl
    (by intro i hi; interval_cases i <;> exact ⟨"nope", rfl⟩)

/-- Membership in the two result lists of the `del_cmd` loop: an item
lands in `ok` exactly when its deletion succeeded, in `failed` exactly
when it raised. -/
lemma del_loop_mem (op : String → Except String Unit) :
    ∀ (l : List String) (x : String),
      (x ∈ (del_loop op l).1 ↔ x ∈ l ∧ exOk (op x) = true) ∧
      (x ∈ (del_loop op l).2 ↔ x ∈ l ∧ exOk (op x) = false) := by
  intro l
  induction l with
  | nil => intro x; simp [del_loop]
  | cons y ys ih =>
    intro x
    have ihx := ih x
    cases hy : op y with
    | ok v =>
      simp only [del_loop, hy]
      constructor
      · constructor
        · intro h
          rcases List.mem_cons.mp h with rfl | hm
          · exact ⟨List.mem_cons_self x ys, by rw [hy]; rfl⟩
          · obtain ⟨h1, h2⟩ := ihx.1.mp hm
            exact ⟨List.mem_cons_of_mem y h1, h2⟩
        · rintro ⟨hm, hx⟩
          rcases List.mem_cons.mp hm with rfl | hm2
          · exact List.mem_cons_self x _
          · exact List.mem_cons_of_mem y (ihx.1.mpr ⟨hm2, hx⟩)
      · constructor
        · intro h
          obtain ⟨h1, h2⟩ := ihx.2.mp h
          exact ⟨List.mem_cons_of_mem y h1, h2⟩
        · rintro ⟨hm, hx⟩
          rcases List.mem_cons.mp hm with rfl | hm2
          · rw [hy] at hx
            simp [exOk] at hx
          · exact ihx.2.mpr ⟨hm2, hx⟩
    | error e =>
      simp only [del_loop, hy]
      constructor
      · constructor
        · intro h
          obtain ⟨h1, h2⟩ := ihx.1.mp h
          exact ⟨List.mem_cons_of_mem y h1, h2⟩
        · rintro ⟨hm, hx⟩
          rcases List.mem_cons.mp hm with rfl | hm2
          · rw [hy] at hx
            simp [exOk] at hx
          · exact ihx.1.mpr ⟨hm2, hx⟩
      · constructor
        · intro h
          rcases List.mem_cons.mp h with rfl | hm
          · exact ⟨List.mem_cons_self x ys, by rw [hy]; rfl⟩
          · obtain ⟨h1, h2⟩ := ihx.2.mp hm
            exact ⟨List.mem_cons_of_mem y h1, h2⟩
        · rintro ⟨hm, hx⟩
          rcases List.mem_cons.mp hm with rfl | hm2
          · exact List.mem_cons_self x _
          · exact List.mem_cons_of_mem y (ihx.2.mpr ⟨hm2, hx⟩)

/-- The `del_cmd` loop classifies every item: no item is dropped. -/
lemma del_loop_length (op : String → Except String Unit) :
    ∀ l : List String,
      (del_loop op l).1.length + (del_loop op l).2.length = l.length := by
  intro l
  induction l with
  | nil => rfl
  | cons y ys ih =>
    cases hy : op y <;> simp only [del_loop, hy, List.length_cons] <;> omega

/-- Structure of the `create_cmd` loop: it creates exactly the longest
all-succeeding prefix, aborts at the first failure, and enters one item
past that prefix when a failure occurs. -/
lemma create_loop_spec (op : String → Except String Unit) :
    ∀ l : List String,
      (create_loop op l).1 = l.takeWhile (fun x => exOk (op x)) ∧
      ((create_loop op l).2.2 = none ↔ ∀ x ∈ l, exOk (op x) = true) ∧
      (create_loop op l).2.1 =
        (l.takeWhile (fun x => exOk (op x))).length +
          (if (create_loop op l).2.2 = none then 0 else 1) := by
  intro l
  induction l with
  | nil => exact ⟨rfl, by simp [create_loop], rfl⟩
  | cons y ys ih =>
    cases hy : op y with
    | ok v =>
      have hb : exOk (op y) = true := by rw [hy]; rfl
      have htw : (y :: ys).takeWhile (fun x => exOk (op x)) =
          y :: ys.takeWhile (fun x => exOk (op x)) := by
        rw [List.takeWhile_cons, if_pos hb]
      refine ⟨?_, ?_, ?_⟩
      · simp only [create_loop, hy, htw]
        rw [ih.1]
      · simp only [create_loop, hy]
        rw [ih.2.1]
        constructor
        · intro hall x hx
          rcases List.mem_cons.mp hx with rfl | hm
          · exact hb
          · exact hall x hm
        · intro hall x hx
          exact hall x (List.mem_cons_of_mem y hx)
      · simp only [create_loop, hy, htw, List.length_cons]
        rw [ih.2.2]
        omega
    | error e =>
      have hb : exOk (op y) = false := by rw [hy]; rfl
      have htw : (y :: ys).takeWhile (fun x => exOk (op x)) = [] := by
        rw [List.takeWhile_cons, if_neg (by rw [hb]; simp)]
      refine ⟨?_, ?_, ?_⟩
      · simp only [create_loop, hy, htw]
      · simp only [create_loop, hy]
        constructor
        · intro hnone
          exact absurd hnone (by simp)
        · intro hall
          have := hall y (List.mem_cons_self y ys)
          rw [hb] at this
          exact absurd this (by simp)
      · simp only [create_loop, hy, htw]
        simp

/-- Every item of the `add_inbound_cmd` loop is classified into exactly
one of the three result lists. -/
lemma add_inbound_loop_length (op : String → RouteOut) :
    ∀ (todo dids : List String),
      (add_inbound_loop op todo dids).1.length +
        (add_inbound_loop op todo dids).2.1.length +
        (add_inbound_loop op todo dids).2.2.length = todo.length := by
  intro todo
  induction todo with
  | nil => intro dids; rfl
  | cons ext rest ih =>
    intro dids
    by_cases hpre : ext ∈ dids ∨ ("_sim" ++ ext) ∈ dids
    · simp only [add_inbound_loop, if_pos hpre, List.length_cons]
      have := ih dids
      omega
    · rcases hop : op ext with _ | _ | e <;>
        simp only [add_inbound_loop, if_neg hpre, hop, List.length_cons]
      · have := ih (("_sim" ++ ext) :: dids); omega
      · have := ih dids; omega
      · have := ih dids; omega

/-- Only items whose route creation succeeded appear in the `ok` list of
the `add_inbound_cmd` loop. -/
lemma add_inbound_loop_ok_mem (op : String → RouteOut) :
    ∀ (todo dids : List String) (x : String),
      x ∈ (add_inbound_loop op todo dids).1 → x ∈ todo ∧ op x = RouteOut.okR := by
  intro todo
  induction todo with
  | nil => intro dids x hx; exact absurd hx (by simp [add_inbound_loop])
  | cons ext rest ih =>
    intro dids x hx
    by_cases hpre : ext ∈ dids ∨ ("_sim" ++ ext) ∈ dids
    · rw [add_inbound_loop, if_pos hpre] at hx
      obtain ⟨hm, ho⟩ := ih dids x hx
      exact ⟨List.mem_cons_of_mem ext hm, ho⟩
    · rcases hop : op ext with _ | _ | e <;>
        rw [add_inbound_loop, if_neg hpre, hop] at hx
      · rcases List.mem_cons.mp hx with rfl | hm
        · exact ⟨List.mem_cons_self x rest, hop⟩
        · obtain ⟨hm2, ho⟩ := ih (("_sim" ++ ext) :: dids) x hm
          exact ⟨List.mem_cons_of_mem ext hm2, ho⟩
      · obtain ⟨hm, ho⟩ := ih dids x hx
        exact ⟨List.mem_cons_of_mem ext hm, ho⟩
      · obtain ⟨hm, ho⟩ := ih dids x hx
        exact ⟨List.mem_cons_of_mem ext hm, ho⟩

/-- An item that raises `AlreadyExists` is recorded as skipped by the
`add_inbound_cmd` loop (possibly via the DID pre-check, which also
skips). -/
lemma add_inbound_loop_already_skipped (op : String → RouteOut) :
    ∀ (todo dids : List String) (x : String),
      x ∈ todo → op x = RouteOut.alreadyR →
      x ∈ (add_inbound_loop op todo dids).2.1 := by
  intro todo
  induction todo with
  | nil => intro dids x hx; exact absurd hx (by simp)
  | cons ext rest ih =>
    intro dids x hx hop
    by_cases hpre : ext ∈ dids ∨ ("_sim" ++ ext) ∈ dids
    · rw [add_inbound_loop, if_pos hpre]
      rcases List.mem_cons.mp hx with rfl | hm
      · exact List.mem_cons_self x _
      · exact List.mem_cons_of_mem ext (ih dids x hm hop)
    · rcases List.mem_cons.mp hx with rfl | hm
      · rw [add_inbound_loop, if_neg hpre, hop]
        exact List.mem_cons_self x _
      · rcases hop2 : op ext with _ | _ | e <;>
          rw [add_inbound_loop, if_neg hpre, hop2]
        · exact ih (("_sim" ++ ext) :: dids) x hm hop
        · exact List.mem_cons_of_mem ext (ih dids x hm hop)
        · exact ih dids x hm hop

/-- An item that raises any other error is recorded as failed (with its
truncated message) unless the DID pre-check had already skipped it; in
both cases the loop continues. -/
lemma add_inbound_loop_err_failed (op : String → RouteOut) :
    ∀ (todo dids : List String) (x e : String),
      x ∈ todo → op x = RouteOut.errR e →
      (x ++ " (" ++ e.take 80 ++ ")") ∈ (add_inbound_loop op todo dids).2.2 ∨
        x ∈ (add_inbound_loop op todo dids).2.1 := by
  intro todo
  induction todo with
  | nil => intro dids x e hx; exact absurd hx (by simp)
  | cons ext rest ih =>
    intro dids x e hx hop
    by_cases hpre : ext ∈ dids ∨ ("_sim" ++ ext) ∈ dids
    · rw [add_inbound_loop, if_pos hpre]
      rcases List.mem_cons.mp hx with rfl | hm
      · exact Or.inr (List.mem_cons_self x _)
      · rcases ih dids x e hm hop with hf | hs
        · exact Or.inl hf
        · exact Or.inr (List.mem_cons_of_mem ext hs)
    · rcases List.mem_cons.mp hx with rfl | hm
      · rw [add_inbound_loop, if_neg hpre, hop]
        exact Or.inl (List.mem_cons_self _ _)
      · rcases hop2 : op ext with _ | _ | e2 <;>
          rw [add_inbound_loop, if_neg hpre, hop2]
        · exact ih (("_sim" ++ ext) :: dids) x e hm hop
        · rcases ih dids x e hm hop with hf | hs
          · exact Or.inl hf
          · exact Or.inr (List.mem_cons_of_mem ext hs)
        · rcases ih dids x e hm hop with hf | hs
          · exact Or.inl (List.mem_cons_of_mem _ hf)
          · exact Or.inr hs

/-- C1 counterexample: in `del_inbound_cmd`, `apply_config` is invoked
after the loop even when not a single deletion succeeded, refuting
"invoked ... if and only if at least one item succeeded". -/
theorem batch_apply_counterexample :
    (del_inbound_batch ["401"] (fun _ => Except.error "boom") true).okItems = [] ∧
    (del_inbound_batch ["401"] (fun _ => Except.error "boom") true).applyCalls = 1 :=
  ⟨rfl, rfl⟩

/-- C1 (amended): `apply_config` is invoked at most once in every batch,
after the per-item loop, and its failure is reported separately without
changing any per-item outcome; but the trigger differs per handler:
`del_cmd` and `add_inbound_cmd` apply iff at least one item succeeded,
`create_cmd` applies iff the target list is non-empty and EVERY item
succeeded (a failure aborts the handler before the apply), and
`del_inbound_cmd` applies whenever its matched target list is non-empty,
regardless of per-item success. -/
theorem batch_apply_amended :
    (∀ (targets : List String) op applyOk,
       (create_batch targets op applyOk).applyCalls ≤ 1 ∧
       ((create_batch targets op applyOk).applyCalls = 1 ↔
         targets ≠ [] ∧ ∀ x ∈ targets, exOk (op x) = true)) ∧
    (∀ (requested existing : List String) op applyOk,
       (del_batch requested existing op applyOk).applyCalls ≤ 1 ∧
       ((del_batch requested existing op applyOk).applyCalls = 1 ↔
         ∃ x ∈ requested.filter (fun y => y ∈ existing), exOk (op x) = true)) ∧
    (∀ (todo dids : List String) op applyOk,
       (add_inbound_batch todo dids op applyOk).applyCalls ≤ 1 ∧
       ((add_inbound_batch todo dids op applyOk).applyCalls = 1 ↔
         (add_inbound_loop op todo dids).1 ≠ []) ∧
       ((add_inbound_batch todo dids op applyOk).applyCalls = 1 →
         ∃ x ∈ todo, op x = RouteOut.okR)) ∧
    (∀ (todo : List String) op applyOk,
       (del_inbound_batch todo op applyOk).applyCalls ≤ 1 ∧
       ((del_inbound_batch todo op applyOk).applyCalls = 1 ↔ todo ≠ [])) ∧
    (∀ (targets : List String) op applyOk,
       ((create_batch targets op applyOk).applyFailReported ↔
         (create_batch targets op applyOk).applyCalls = 1 ∧ applyOk = false) ∧
       (create_batch targets op applyOk).okItems = (create_batch targets op true).okItems ∧
       (create_batch targets op applyOk).failedItems
         = (create_batch targets op true).failedItems) ∧
    (∀ (requested existing : List String) op applyOk,
       ((del_batch requested existing op applyOk).applyFailReported ↔
         (del_batch requested existing op applyOk).applyCalls = 1 ∧ applyOk = false) ∧
       (del_batch requested existing op applyOk).okItems
         = (del_batch requested existing op true).okItems ∧
       (del_batch requested existing op applyOk).failedItems
         = (del_batch requested existing op true).failedItems) ∧
    (∀ (todo dids : List String) op applyOk,
       ((add_inbound_batch todo dids op applyOk).applyFailReported ↔
         (add_inbound_batch todo dids op applyOk).applyCalls = 1 ∧ applyOk = false) ∧
       (add_inbound_batch todo dids op applyOk).okItems
         = (add_inbound_batch todo dids op true).okItems ∧
       (add_inbound_batch todo dids op applyOk).skippedItems
         = (add_inbound_batch todo dids op true).skippedItems ∧
       (add_inbound_batch todo dids op applyOk).failedItems
         = (add_inbound_batch todo dids op true).failedItems) ∧
    (∀ (todo : List String) op applyOk,
       ((del_inbound_batch todo op applyOk).applyFailReported ↔
         (del_inbound_batch todo op applyOk).applyCalls = 1 ∧ applyOk = false) ∧
       (del_inbound_batch todo op applyOk).okItems
         = (del_inbound_batch todo op true).okItems ∧
       (del_inbound_batch todo op applyOk).failedItems
         = (del_inbound_batch todo op true).failedItems) := by
  refine ⟨?_, ?_, ?_, ?_, ?_, ?_, ?_, ?_⟩
  · intro targets op applyOk
    constructor
    · simp only [create_batch]
      split_ifs <;> simp
    · simp only [create_batch]
      split_ifs with h

      · simp only [iff_true_intro rfl, true_iff]
        exact ⟨h.2, (create_loop_spec op targets).2.1.mp h.1⟩
      · constructor
        · intro h01
          exact absurd h01 (by simp)
        · rintro ⟨hne, hall⟩
          exact absurd ⟨(create_loop_spec op targets).2.1.mpr hall, hne⟩ h
  · intro requested existing op applyOk
    constructor
    · simp only [del_batch]
      split_ifs <;> simp
    · simp only [del_batch]
      split_ifs with h
      · simp only [iff_true_intro rfl, true_iff]
        rcases hok : (del_loop op (requested.filter (fun y => y ∈ existing))).1 with _ | ⟨a, t⟩
        · exact absurd hok h
        · have ha : a ∈ (del_loop op (requested.filter (fun y => y ∈ existing))).1 := by
            rw [hok]; exact List.mem_cons_self a t
          obtain ⟨hm, hx⟩ := (del_loop_mem op (requested.filter (fun y => y ∈ existing)) a).1.mp ha
          exact ⟨a, hm, hx⟩
      · constructor
        · intro h01
          exact absurd h01 (by simp)
        · rintro ⟨x, hm, hx⟩
          have : x ∈ (del_loop op (requested.filter (fun y => y ∈ existing))).1 :=
            (del_loop_mem op (requested.filter (fun y => y ∈ existing)) x).1.mpr ⟨hm, hx⟩
          exact absurd (List.ne_nil_of_mem this) (by simpa using h)
  · intro todo dids op applyOk
    refine ⟨?_, ?_, ?_⟩
    · simp only [add_inbound_batch]
      split_ifs <;> simp
    · simp only [add_inbound_batch]
      split_ifs with h
      · simp [h]
      · simpa using h
    · intro h1
      have hne : (add_inbound_loop op todo dids).1 ≠ [] := by
        revert h1
        simp only [add_inbound_batch]
        split_ifs with h
        · intro _; exact h
        · intro h01; exact absurd h01 (by simp)
      rcases hok : (add_inbound_loop op todo dids).1 with _ | ⟨a, t⟩
      · exact absurd hok hne
      · have ha : a ∈ (add_inbound_loop op todo dids).1 := by
          rw [hok]; exact List.mem_cons_self a t
        obtain ⟨hm, ho⟩ := add_inbound_loop_ok_mem op todo dids a ha
        exact ⟨a, hm, ho⟩
  · intro todo op applyOk
    constructor
    · simp only [del_inbound_batch]
      split_ifs <;> simp
    · simp only [del_inbound_batch]
      split_ifs with h
      · simp [h]
      · simp [h]
  · intro targets op applyOk
    refine ⟨?_, rfl, rfl⟩
    simp only [create_batch]
    exact decide_eq_true_iff
  · intro requested existing op applyOk
    refine ⟨?_, rfl, rfl⟩
    simp only [del_batch]
    exact decide_eq_true_iff
  · intro todo dids op applyOk
    refine ⟨?_, rfl, rfl, rfl⟩
    simp only [add_inbound_batch]
    exact decide_eq_true_iff
  · intro todo op applyOk
    constructor
    · simp only [del_inbound_batch]
      split_ifs with h
      · simp
      · simp
    · simp only [del_inbound_batch]
      split_ifs <;> exact ⟨rfl, rfl⟩

/-- Witness for `batch_apply_amended`: one successful deletion triggers
exactly one apply. -/
theorem batch_apply_amended_witness :
    (del_batch ["401"] ["401"] (fun _ => Except.ok ()) true).applyCalls = 1 :=
  (batch_apply_amended.2.1 ["401"] ["401"] (fun _ => Except.ok ()) true).2.mpr
    (by decide)

/-- C2 counterexample: `create_cmd` has no per-item exception handling:
with two targets whose first creation fails, only one item is entered,
nothing is created, and the second item is never processed - the batch
does not process all N items. -/
theorem batch_failfast_counterexample :
    (create_batch ["401", "402"]
        (fun x => if x = "401" then Except.error "e" else Except.ok ()) true).processed
      = 1 ∧
    (create_batch ["401", "402"]
        (fun x => if x = "401" then Except.error "e" else Except.ok ()) true).okItems
      = [] ∧
    (["401", "402"] : List String).length = 2 :=
  ⟨rfl, rfl, rfl⟩

/-- C2 (amended): `add_inbound_cmd` records `AlreadyExists` items as
skipped, other errors as failed (truncated message) unless pre-skipped,
and classifies every item (no fail-fast); `del_cmd` classifies every item
as ok or failed (any error, with no `AlreadyExists` special case) and
continues; `create_cmd` however is fail-fast: it creates exactly the
longest all-succeeding prefix and aborts at the first failing item,
leaving the remaining items unprocessed. -/
theorem batch_item_isolation_amended :
    (∀ op (todo dids : List String),
       (add_inbound_loop op todo dids).1.length +
         (add_inbound_loop op todo dids).2.1.length +
         (add_inbound_loop op todo dids).2.2.length = todo.length) ∧
    (∀ op (todo dids : List String) x, x ∈ todo → op x = RouteOut.alreadyR →
       x ∈ (add_inbound_loop op todo dids).2.1) ∧
    (∀ op (todo dids : List String) x e, x ∈ todo → op x = RouteOut.errR e →
       (x ++ " (" ++ e.take 80 ++ ")") ∈ (add_inbound_loop op todo dids).2.2 ∨
         x ∈ (add_inbound_loop op todo dids).2.1) ∧
    (∀ op (l : List String),
       (del_loop op l).1.length + (del_loop op l).2.length = l.length) ∧
    (∀ op (l : List String) x,
       x ∈ (del_loop op l).2 ↔ x ∈ l ∧ exOk (op x) = false) ∧
    (∀ op (l : List String),
       (create_loop op l).1 = l.takeWhile (fun x => exOk (op x)) ∧
       ((create_loop op l).2.2 = none ↔ ∀ x ∈ l, exOk (op x) = true) ∧
       (create_loop op l).2.1 =
         (l.takeWhile (fun x => exOk (op x))).length +
           (if (create_loop op l).2.2 = none then 0 else 1)) := by
  refine ⟨?_, ?_, ?_, ?_, ?_, ?_⟩
  · intro op todo dids
    exact add_inbound_loop_length op todo dids
  · intro op todo dids x hx hop
    exact add_inbound_loop_already_skipped op todo dids x hx hop
  · intro op todo dids x e hx hop
    exact add_inbound_loop_err_failed op todo dids x e hx hop
  · intro op l
    exact del_loop_length op l
  · intro op l x
    exact (del_loop_mem op l x).2
  · intro op l
    exact create_loop_spec op l

/-- Witness for `batch_item_isolation_amended`: an `AlreadyExists` item
is recorded as skipped. -/
theorem batch_item_isolation_amended_witness :
    ("401" : String) ∈ (["401"] : List String) ∧
    ("401" : String) ∈ (add_inbound_loop (fun _ => RouteOut.alreadyR) ["401"] []).2.1 :=
  ⟨by decide,
   batch_item_isolation_amended.2.1 (fun _ => RouteOut.alreadyR) ["401"] [] "401"
     (by decide) rfl⟩

/-- Numbers `≥ cur + 1` still taken form a strict subset of those `≥ cur`
when `cur` itself is taken. -/
lemma filter_ge_card_lt (taken : Finset Int) (cur : Int) (hc : cur ∈ taken) :
    (taken.filter (fun x => cur + 1 ≤ x)).card <
      (taken.filter (fun x => cur ≤ x)).card := by
  apply Finset.card_lt_card
  rw [Finset.ssubset_iff_of_subset]
  · refine ⟨cur, ?_, ?_⟩
    · simp only [Finset.mem_filter]
      exact ⟨hc, le_refl cur⟩
    · simp only [Finset.mem_filter]
      rintro ⟨_, habs⟩
      omega
  · intro x hx
    simp only [Finset.mem_filter] at hx ⊢
    exact ⟨hx.1, by omega⟩

/-- Advancing the scan origin cannot enlarge the blocking set. -/
lemma filter_ge_card_le (taken : Finset Int) (cur : Int) :
    (taken.filter (fun x => cur + 1 ≤ x)).card ≤
      (taken.filter (fun x => cur ≤ x)).card := by
  apply Finset.card_le_card
  intro x hx
  simp only [Finset.mem_filter] at hx ⊢
  exact ⟨hx.1, by omega⟩

/-- With fuel covering the taken numbers at or above the scan origin plus
the requested count, the scan loop emits exactly `count` numbers. -/
lemma next_free_loop_length (fuel : Nat) :
    ∀ (taken : Finset Int) (cur : Int) (count : Nat),
      (taken.filter (fun x => cur ≤ x)).card + count ≤ fuel →
      (next_free_loop fuel taken cur count).length = count := by
  induction fuel with
  | zero =>
    intro taken cur count h
    have : count = 0 := by omega
    subst this
    rfl
  | succ f ih =>
    intro taken cur count h
    match count with
    | 0 => rfl
    | c + 1 =>
      show (if cur ∈ taken then next_free_loop f taken (cur + 1) (c + 1)
            else cur :: next_free_loop f taken (cur + 1) c).length = c + 1
      by_cases hc : cur ∈ taken
      · rw [if_pos hc]
        apply ih
        have := filter_ge_card_lt taken cur hc
        omega
      · rw [if_neg hc, List.length_cons]
        rw [ih taken (cur + 1) c (by have := filter_ge_card_le taken cur; omega)]

/-- Every emitted number is at or above the scan origin and free. -/
lemma next_free_loop_mem (fuel : Nat) :
    ∀ (taken : Finset Int) (cur : Int) (count : Nat) (x : Int),
      x ∈ next_free_loop fuel taken cur count → cur ≤ x ∧ x ∉ taken := by
  induction fuel with
  | zero =>
    intro taken cur count x hx
    exact absurd hx (by simp [next_free_loop])
  | succ f ih =>
    intro taken cur count x hx
    match count with
    | 0 => exact absurd hx (by simp [next_free_loop])
    | c + 1 =>
      rw [show next_free_loop (f + 1) taken cur (c + 1) =
            (if cur ∈ taken then next_free_loop f taken (cur + 1) (c + 1)
             else cur :: next_free_loop f taken (cur + 1) c) from rfl] at hx
      by_cases hc : cur ∈ taken
      · rw [if_pos hc] at hx
        obtain ⟨h1, h2⟩ := ih taken (cur + 1) (c + 1) x hx
        exact ⟨by omega, h2⟩
      · rw [if_neg hc] at hx
        rcases List.mem_cons.mp hx with rfl | hm
        · exact ⟨le_refl x, hc⟩
        · obtain ⟨h1, h2⟩ := ih taken (cur + 1) c x hm
          exact ⟨by omega, h2⟩

/-- The emitted numbers are strictly increasing (so no number is emitted
twice). -/
lemma next_free_loop_pairwise (fuel : Nat) :
    ∀ (taken : Finset Int) (cur : Int) (count : Nat),
      (next_free_loop fuel taken cur count).Pairwise (fun a b => a < b) := by
  induction fuel with
  | zero =>
    intro taken cur count
    exact List.Pairwise.nil
  | succ f ih =>
    intro taken cur count
    match count with
    | 0 => exact List.Pairwise.nil
    | c + 1 =>
      show (if cur ∈ taken then next_free_loop f taken (cur + 1) (c + 1)
            else cur :: next_free_loop f taken (cur + 1) c).Pairwise (fun a b => a < b)
      by_cases hc : cur ∈ taken
      · rw [if_pos hc]
        exact ih taken (cur + 1) (c + 1)
      · rw [if_neg hc]
        refine List.Pairwise.cons ?_ (ih taken (cur + 1) c)
        intro y hy
        have := (next_free_loop_mem f taken (cur + 1) c y hy).1
        omega

/-- `optMap` preserves length. -/
lemma optMap_length {α β : Type} (f : α → Option β) :
    ∀ (l : List α) (l2 : List β), optMap f l = some l2 → l2.length = l.length := by
  intro l
  induction l with
  | nil =>
    intro l2 h
    cases h
    rfl
  | cons x xs ih =>
    intro l2 h
    rw [optMap] at h
    cases hf : f x with
    | none => rw [hf] at h; cases h
    | some y =>
      rw [hf] at h
      cases hr : optMap f xs with
      | none => rw [hr] at h; cases h
      | some ys =>
        rw [hr] at h
        cases h
        simp [ih ys hr]

/-- C4: `next_free` on parseable inputs returns exactly `count` numeric
strings, scanned upward from `start`, strictly increasing (never emitting
a number twice), and never containing a number of `existing`; in
particular `next_free ["401","402"] 401 3 = ["403","404","405"]`. -/
theorem next_free_spec :
    (∀ (existing : List String) (start : Int) (count : Nat) (tk : List Int),
      optMap pyParseInt existing = some tk →
      ∃ nums : List Int,
        next_free existing start count = some (nums.map (fun n => toString n)) ∧
        nums.length = count ∧
        nums.Pairwise (fun a b => a < b) ∧
        (∀ x ∈ nums, start ≤ x ∧ x ∉ tk)) ∧
    next_free ["401", "402"] 401 3 = some ["403", "404", "405"] := by
  constructor
  · intro existing start count tk htk
    refine ⟨next_free_loop (count + existing.length) tk.toFinset start count, ?_, ?_, ?_, ?_⟩
    · rw [next_free, htk]
    · apply next_free_loop_length
      have h1 : (tk.toFinset.filter (fun x => start ≤ x)).card ≤ tk.toFinset.card :=
        Finset.card_filter_le _ _
      have h2 : tk.toFinset.card ≤ tk.length := tk.toFinset_card_le
      have h3 : tk.length = existing.length := optMap_length pyParseInt existing tk htk
      omega
    · exact next_free_loop_pairwise _ tk.toFinset start count
    · intro x hx
      obtain ⟨h1, h2⟩ := next_free_loop_mem _ tk.toFinset start count x hx
      exact ⟨h1, fun hmem => h2 (List.mem_toFinset.mpr hmem)⟩
  · rfl

/-- Witness for `next_free_spec` at the spec example. -/
theorem next_free_spec_witness :
    optMap pyParseInt ["401", "402"] = some [401, 402] ∧
    (∃ nums : List Int,
        next_free ["401", "402"] 401 3 = some (nums.map (fun n => toString n)) ∧
        nums.length = 3 ∧
        nums.Pairwise (fun a b => a < b) ∧
        (∀ x ∈ nums, 401 ≤ x ∧ x ∉ ([401, 402] : List Int))) :=
  ⟨by decide, next_free_spec.1 ["401", "402"] 401 3 [401, 402] (by decide)⟩

/-- Membership after dedup: kept iff present and not previously seen. -/
lemma dedupAux_mem :
    ∀ (l seen : List String) (x : String),
      x ∈ dedupAux l seen ↔ x ∈ l ∧ x ∉ seen := by
  intro l
  induction l with
  | nil => intro seen x; simp [dedupAux]
  | cons y ys ih =>
    intro seen x
    by_cases hy : y ∈ seen
    · rw [dedupAux, if_pos hy, ih seen x]
      constructor
      · rintro ⟨h1, h2⟩
        exact ⟨List.mem_cons_of_mem y h1, h2⟩
      · rintro ⟨h1, h2⟩
        rcases List.mem_cons.mp h1 with rfl | hm
        · exact absurd hy h2
        · exact ⟨hm, h2⟩
    · rw [dedupAux, if_neg hy]
      constructor
      · intro h
        rcases List.mem_cons.mp h with rfl | hm
        · exact ⟨List.mem_cons_self x ys, hy⟩
        · obtain ⟨h1, h2⟩ := (ih (y :: seen) x).mp hm
          exact ⟨List.mem_cons_of_mem y h1, fun hs => h2 (List.mem_cons_of_mem y hs)⟩
      · rintro ⟨h1, h2⟩
        rcases List.mem_cons.mp h1 with rfl | hm
        · exact List.mem_cons_self x _
        · by_cases hxy : x = y
          · subst hxy
            exact List.mem_cons_self x _
          · exact List.mem_cons_of_mem y
              ((ih (y :: seen) x).mpr ⟨hm, fun hs => by
                rcases List.mem_cons.mp hs with h3 | h3
                · exact hxy h3
                · exact h2 h3⟩)

/-- The dedup pass returns a duplicate-free list. -/
lemma dedupAux_nodup :
    ∀ (l seen : List String), (dedupAux l seen).Nodup := by
  intro l
  induction l with
  | nil => intro seen; exact List.nodup_nil
  | cons y ys ih =>
    intro seen
    by_cases hy : y ∈ seen
    · rw [dedupAux, if_pos hy]
      exact ih seen
    · rw [dedupAux, if_neg hy]
      refine List.Nodup.cons ?_ (ih (y :: seen))
      intro hmem
      exact ((dedupAux_mem ys (y :: seen) y).mp hmem).2 (List.mem_cons_self y seen)

/-- Stable keyed insertion permutes with plain cons. -/
lemma insertByKey_perm (x : String × Int) :
    ∀ l : List (String × Int), List.Perm (insertByKey x l) (x :: l) := by
  intro l
  induction l with
  | nil => exact List.Perm.refl _
  | cons y ys ih =>
    by_cases h : x.2 < y.2
    · rw [insertByKey, if_pos h]
    · rw [insertByKey, if_neg h]
      exact ((List.Perm.cons y ih).trans (List.Perm.swap x y ys))

/-- Keyed insertion preserves the sortedness invariant. -/
lemma insertByKey_pairwise (x : String × Int) :
    ∀ l : List (String × Int),
      l.Pairwise (fun a b => a.2 ≤ b.2) →
      (insertByKey x l).Pairwise (fun a b => a.2 ≤ b.2) := by
  intro l
  induction l with
  | nil =>
    intro _
    exact List.pairwise_singleton _ x
  | cons y ys ih =>
    intro h
    obtain ⟨hy, hys⟩ := List.pairwise_cons.mp h
    by_cases hlt : x.2 < y.2
    · rw [insertByKey, if_pos hlt]
      refine List.Pairwise.cons ?_ h
      intro z hz
      rcases List.mem_cons.mp hz with rfl | hm
      · exact le_of_lt hlt
      · exact le_trans (le_of_lt hlt) (hy z hm)
    · rw [insertByKey, if_neg hlt]
      refine List.Pairwise.cons ?_ (ih hys)
      intro z hz
      have hz2 : z ∈ x :: ys := ((insertByKey_perm x ys).mem_iff).mp hz
      rcases List.mem_cons.mp hz2 with rfl | hm
      · omega
      · exact hy z hm

/-- The fold of keyed insertions permutes with appending. -/
lemma sortFold_perm :
    ∀ (l acc : List (String × Int)),
      List.Perm (l.foldl (fun acc x => insertByKey x acc) acc) (acc ++ l) := by
  intro l
  induction l with
  | nil =>
    intro acc
    rw [List.append_nil]
    exact List.Perm.refl _
  | cons x xs ih =>
    intro acc
    have h1 : List.Perm (xs.foldl (fun acc x => insertByKey x acc) (insertByKey x acc))
        (insertByKey x acc ++ xs) := ih (insertByKey x acc)
    have h2 : List.Perm (insertByKey x acc ++ xs) ((x :: acc) ++ xs) :=
      (insertByKey_perm x acc).append_right xs
    have h3 : List.Perm (x :: (acc ++ xs)) (acc ++ x :: xs) := List.perm_middle.symm
    exact h1.trans (h2.trans h3)

/-- `sortByIntKey` permutes its input. -/
lemma sortByIntKey_perm (l : List (String × Int)) : List.Perm (sortByIntKey l) l :=
  sortFold_perm l []

/-- The fold of keyed insertions keeps the accumulator sorted. -/
lemma sortFold_pairwise :
    ∀ (l acc : List (String × Int)),
      acc.Pairwise (fun a b => a.2 ≤ b.2) →
      (l.foldl (fun acc x => insertByKey x acc) acc).Pairwise (fun a b => a.2 ≤ b.2) := by
  intro l
  induction l with
  | nil => intro acc h; exact h
  | cons x xs ih =>
    intro acc h
    exact ih (insertByKey x acc) (insertByKey_pairwise x acc h)

/-- `sortByIntKey` sorts by key (non-decreasing). -/
lemma sortByIntKey_pairwise (l : List (String × Int)) :
    (sortByIntKey l).Pairwise (fun a b => a.2 ≤ b.2) :=
  sortFold_pairwise l [] List.Pairwise.nil

/-- The keying pass of `parse_targets`: on success it decorates each kept
string with its parsed integer. -/
lemma optMap_key_spec :
    ∀ (l : List String) (keyed : List (String × Int)),
      optMap (fun x => (pyParseInt x).map (fun n => (x, n))) l = some keyed →
      keyed.map Prod.fst = l ∧ ∀ p ∈ keyed, pyParseInt p.1 = some p.2 := by
  intro l
  induction l with
  | nil =>
    intro keyed h
    cases h
    exact ⟨rfl, by simp⟩
  | cons x xs ih =>
    intro keyed h
    rw [optMap] at h
    cases hx : pyParseInt x with
    | none =>
      rw [hx] at h
      cases h
    | some n =>
      rw [hx] at h
      cases hr : optMap (fun x => (pyParseInt x).map (fun n => (x, n))) xs with
      | none =>
        rw [hr] at h
        cases h
      | some ys =>
        rw [hr] at h
        cases h
        obtain ⟨h1, h2⟩ := ih ys hr
        refine ⟨by simp [h1], ?_⟩
        intro p hp
        rcases List.mem_cons.mp hp with rfl | hm
        · exact hx
        · exact h2 p hm

/-- C5 counterexample: `parse_targets "402-401"` silently returns the
EMPTY list: the inverted range is neither normalized (no "401"/"402" in
the output) nor an explicit failure. -/
theorem parse_targets_counterexample :
    parse_targets "402-401" = some [] ∧
    parse_targets "402-401" ≠ none ∧
    parse_targets "402-401" ≠ some ["401", "402"] := by
  refine ⟨rfl, ?_, ?_⟩ <;> decide

/-- C5 (amended): `parse_targets` merges its whitespace-separated tokens
into a duplicate-free sequence sorted ascending by numeric key, covering
exactly the numbers denoted by its tokens, where a `-` token expands to
the inclusive range from its first to its second endpoint - which is
EMPTY when the endpoints are inverted (`"402-401"` deterministically
yields `[]`, with no swap and no error). -/
theorem parse_targets_amended :
    parse_targets "402-401" = some [] ∧
    parse_targets "410-412 401" = some ["401", "410", "411", "412"] ∧
    (∀ a b n : Int, n ∈ intRange a b ↔ a ≤ n ∧ n ≤ b) ∧
    (∀ (s : String) (outs : List (List String)) (res : List String),
       optMap expandTok (splitWs s.data) = some outs →
       parse_targets s = some res →
       res.Nodup ∧
       res.Pairwise (fun x y => (pyParseInt x).getD 0 ≤ (pyParseInt y).getD 0) ∧
       (∀ x, x ∈ res ↔ x ∈ outs.flatten) ∧
       (∀ x ∈ res, (pyParseInt x).isSome = true)) := by
  refine ⟨rfl, by decide, ?_, ?_⟩
  · intro a b n
    unfold intRange
    constructor
    · intro h
      obtain ⟨i, hi, rfl⟩ := List.mem_map.mp h
      have := List.mem_range.mp hi
      omega
    · rintro ⟨h1, h2⟩
      refine List.mem_map.mpr ⟨(n - a).toNat, List.mem_range.mpr (by omega), by omega⟩
  · intro s outs res ho hp
    simp only [parse_targets, ho] at hp
    cases hk : optMap (fun x => (pyParseInt x).map (fun n => (x, n)))
        (dedupKeepFirst outs.flatten) with
    | none =>
      rw [hk] at hp
      cases hp
    | some keyed =>
      rw [hk] at hp
      have hres : res = (sortByIntKey keyed).map Prod.fst := (Option.some.inj hp).symm
      obtain ⟨hmap, hkey⟩ := optMap_key_spec (dedupKeepFirst outs.flatten) keyed hk
      have hperm : List.Perm (sortByIntKey keyed) keyed := sortByIntKey_perm keyed
      have hpermf : List.Perm res (dedupKeepFirst outs.flatten) := by
        rw [hres, ← hmap]
        exact hperm.map Prod.fst
      have huniq_nodup : (dedupKeepFirst outs.flatten).Nodup := dedupAux_nodup _ []
      refine ⟨hpermf.nodup_iff.mpr huniq_nodup, ?_, ?_, ?_⟩
      · rw [hres, List.pairwise_map]
        refine List.Pairwise.imp_of_mem ?_ (sortByIntKey_pairwise keyed)
        intro p q hpm hqm hle
        have hp1 : pyParseInt p.1 = some p.2 := hkey p (hperm.mem_iff.mp hpm)
        have hq1 : pyParseInt q.1 = some q.2 := hkey q (hperm.mem_iff.mp hqm)
        rw [hp1, hq1]
        exact hle
      · intro x
        rw [hpermf.mem_iff]
        rw [dedupKeepFirst, dedupAux_mem]
        simp
      · intro x hx
        have hxu : x ∈ dedupKeepFirst outs.flatten := hpermf.mem_iff.mp hx
        rw [← hmap] at hxu
        obtain ⟨p, hpm, rfl⟩ := List.mem_map.mp hxu
        rw [hkey p hpm]
        rfl

/-- Witness for `parse_targets_amended` at the spec example. -/
theorem parse_targets_amended_witness :
    optMap expandTok (splitWs ("410-412 401" : String).data) =
      some [["410", "411", "412"], ["401"]] ∧
    (["401", "410", "411", "412"] : List String).Nodup :=
  ⟨by decide,
   (parse_targets_amended.2.2.2 "410-412 401" [["410", "411", "412"], ["401"]]
      ["401", "410", "411", "412"] (by decide) (by decide)).1⟩
